import Mathlib

/-!
Verification of the Pipeline/Model Metadata Descriptor contract of the
wml-sample-models repository.

The repository ships a JSON descriptor document (embedded below as
`exampleDoc`) describing a trained Spark MLlib pipeline model.  The
parse / validate / serialize contract over such documents is given by the
repository's specification; the corresponding record types and functions
are modelled here from that specification, since the repository itself
contains only the descriptor data and notebook material, not the
parse/validate/serialize code.
-/

/-- A nested key/value document value (the JSON data model).  Objects are
ordered association lists, preserving the order in which keys appear. -/
inductive JValue where
  | str  : String → JValue
  | num  : Int → JValue
  | bool : Bool → JValue
  | null : JValue
  | arr  : List JValue → JValue
  | obj  : List (String × JValue) → JValue
deriving Repr

/-- Look a key up in an object's entry list (first occurrence wins). -/
def jlookup (o : List (String × JValue)) (k : String) : Option JValue :=
  match o with
  | [] => none
  | (k', v) :: rest => if k' = k then some v else jlookup rest k

/-- Drop all entries whose key is listed in `ks`. -/
def removeKeys : List (String × JValue) → List String → List (String × JValue)
  | [], _ => []
  | (k, v) :: rest, ks =>
    if k ∈ ks then removeKeys rest ks else (k, v) :: removeKeys rest ks

/-- Boolean no-duplicates check on a list of keys. -/
def nodupB : List String → Bool
  | [] => true
  | k :: ks => !decide (k ∈ ks) && nodupB ks

theorem jlookup_sizeOf {o : List (String × JValue)} {k : String} {v : JValue}
    (h : jlookup o k = some v) : sizeOf v < sizeOf o := by
  induction o with
  | nil => simp [jlookup] at h
  | cons kv rest ih =>
    obtain ⟨k', v'⟩ := kv
    simp only [jlookup] at h
    split at h
    · cases h
      simp only [List.cons.sizeOf_spec, Prod.mk.sizeOf_spec]
      omega
    · have := ih h
      simp only [List.cons.sizeOf_spec, Prod.mk.sizeOf_spec]
      omega

mutual

/-- Well-formedness of a document: every object has pairwise-distinct keys. -/
def wfB : JValue → Bool
  | .str _ => true
  | .num _ => true
  | .bool _ => true
  | .null => true
  | .arr l => wfList l
  | .obj o => nodupB (o.map Prod.fst) && wfObj o

/-- Well-formedness of each element of an array. -/
def wfList : List JValue → Bool
  | [] => true
  | x :: xs => wfB x && wfList xs

/-- Well-formedness of each value of an object. -/
def wfObj : List (String × JValue) → Bool
  | [] => true
  | kv :: rest => wfB kv.2 && wfObj rest

end

mutual

/-- Key-order-insensitive structural equality of two document values:
scalars must agree exactly, arrays must agree element-wise in order, and
objects must contain each other's key/value entries up to this same
equivalence (key order irrelevant). -/
def jequiv : JValue → JValue → Bool
  | .str a, .str b => a = b
  | .num a, .num b => a = b
  | .bool a, .bool b => a = b
  | .null, .null => true
  | .arr a, .arr b => jequivList a b
  | .obj a, .obj b => subObj a b && subObj b a
  | _, _ => false
termination_by x y => sizeOf x + sizeOf y
decreasing_by
  all_goals simp_wf
  all_goals omega

/-- Element-wise equivalence of two arrays. -/
def jequivList : List JValue → List JValue → Bool
  | [], [] => true
  | x :: xs, y :: ys => jequiv x y && jequivList xs ys
  | _, _ => false
termination_by xs ys => sizeOf xs + sizeOf ys
decreasing_by
  all_goals simp_wf
  all_goals omega

/-- Every entry of `a` is matched by an equivalent value under the same key
in `b`. -/
def subObj : List (String × JValue) → List (String × JValue) → Bool
  | [], _ => true
  | (k, v) :: rest, b =>
    (match h : jlookup b k with
     | some w => jequiv v w
     | none => false) && subObj rest b
termination_by a b => sizeOf a + sizeOf b
decreasing_by
  all_goals simp_wf
  all_goals first
  | (have hs := jlookup_sizeOf h; omega)
  | omega

end

theorem jlookup_mem {o : List (String × JValue)} {k : String} {v : JValue}
    (h : jlookup o k = some v) : (k, v) ∈ o := by
  induction o with
  | nil => simp [jlookup] at h
  | cons kv rest ih =>
    obtain ⟨k', v'⟩ := kv
    simp only [jlookup] at h
    split at h
    · rename_i hk
      cases h
      subst hk
      exact List.mem_cons_self _ _
    · exact List.mem_cons_of_mem _ (ih h)

theorem jlookup_none_not_mem {o : List (String × JValue)} {k : String}
    (h : jlookup o k = none) {v : JValue} (hm : (k, v) ∈ o) : False := by
  induction o with
  | nil => simp at hm
  | cons kv rest ih =>
    obtain ⟨k', v'⟩ := kv
    simp only [jlookup] at h
    split at h
    · cases h
    · rcases List.mem_cons.mp hm with heq | hmem
      · rename_i hk
        cases heq
        exact hk rfl
      · exact ih h hmem

theorem jlookup_of_mem_nodup {o : List (String × JValue)} {k : String} {v : JValue}
    (hn : nodupB (o.map Prod.fst) = true) (hm : (k, v) ∈ o) : jlookup o k = some v := by
  induction o with
  | nil => simp at hm
  | cons kv rest ih =>
    obtain ⟨k', v'⟩ := kv
    simp only [List.map_cons, nodupB, Bool.and_eq_true, Bool.not_eq_true',
      decide_eq_false_iff_not] at hn
    obtain ⟨hnc, hn'⟩ := hn
    simp only [jlookup]
    rcases List.mem_cons.mp hm with heq | hmem
    · cases heq
      simp
    · split
      · rename_i hk
        subst hk
        exact absurd (List.mem_map.mpr ⟨(k', v), hmem, rfl⟩) hnc
      · exact ih hn' hmem

theorem jlookup_append_some {a b : List (String × JValue)} {k : String} {v : JValue}
    (h : jlookup a k = some v) : jlookup (a ++ b) k = some v := by
  induction a with
  | nil => simp [jlookup] at h
  | cons kv rest ih =>
    obtain ⟨k', v'⟩ := kv
    simp only [jlookup, List.cons_append] at h ⊢
    split at h
    · rename_i hk
      simp [hk, h]
    · rename_i hk
      simp only [if_neg hk]
      exact ih h

theorem jlookup_append_none {a b : List (String × JValue)} {k : String}
    (h : jlookup a k = none) : jlookup (a ++ b) k = jlookup b k := by
  induction a with
  | nil => rfl
  | cons kv rest ih =>
    obtain ⟨k', v'⟩ := kv
    simp only [jlookup, List.cons_append] at h ⊢
    split at h
    · cases h
    · rename_i hk
      simp only [if_neg hk]
      exact ih h

theorem mem_removeKeys {o : List (String × JValue)} {ks : List String} {k : String} {v : JValue}
    (h : (k, v) ∈ removeKeys o ks) : (k, v) ∈ o ∧ k ∉ ks := by
  induction o with
  | nil => simp [removeKeys] at h
  | cons kv rest ih =>
    obtain ⟨k', v'⟩ := kv
    simp only [removeKeys] at h
    split at h
    · rcases ih h with ⟨h1, h2⟩
      exact ⟨List.mem_cons_of_mem _ h1, h2⟩
    · rcases List.mem_cons.mp h with heq | hm
      · rename_i hk
        cases heq
        exact ⟨List.mem_cons_self _ _, hk⟩
      · rcases ih hm with ⟨h1, h2⟩
        exact ⟨List.mem_cons_of_mem _ h1, h2⟩

theorem removeKeys_mem {o : List (String × JValue)} {ks : List String} {k : String} {v : JValue}
    (hm : (k, v) ∈ o) (hk : k ∉ ks) : (k, v) ∈ removeKeys o ks := by
  induction o with
  | nil => simp at hm
  | cons kv rest ih =>
    obtain ⟨k', v'⟩ := kv
    simp only [removeKeys]
    rcases List.mem_cons.mp hm with heq | hmm
    · cases heq
      rw [if_neg hk]
      exact List.mem_cons_self _ _
    · split
      · exact ih hmm
      · exact List.mem_cons_of_mem _ (ih hmm)

theorem jlookup_removeKeys {o : List (String × JValue)} {ks : List String} {k : String}
    (hk : k ∉ ks) : jlookup (removeKeys o ks) k = jlookup o k := by
  induction o with
  | nil => rfl
  | cons kv rest ih =>
    obtain ⟨k', v'⟩ := kv
    by_cases hkk : k' = k
    · subst hkk
      simp only [removeKeys, if_neg hk]
      simp [jlookup]
    · simp only [removeKeys, jlookup, if_neg hkk]
      split
      · exact ih
      · simp only [jlookup, if_neg hkk]
        exact ih

theorem removeKeys_congr {o : List (String × JValue)} {ks1 ks2 : List String}
    (h : ∀ kv ∈ o, kv.1 ∈ ks1 ↔ kv.1 ∈ ks2) :
    removeKeys o ks1 = removeKeys o ks2 := by
  induction o with
  | nil => rfl
  | cons kv rest ih =>
    obtain ⟨k, v⟩ := kv
    simp only [removeKeys]
    have hh := h (k, v) (List.mem_cons_self _ _)
    have ht := ih fun kv hm => h kv (List.mem_cons_of_mem _ hm)
    by_cases hk : k ∈ ks1
    · rw [if_pos hk, if_pos (hh.mp hk), ht]
    · rw [if_neg hk, if_neg (fun hc => hk (hh.mpr hc)), ht]

theorem sizeOf_lt_of_mem_jlist {l : List JValue} {x : JValue} (h : x ∈ l) :
    sizeOf x < sizeOf l := by
  induction l with
  | nil => simp at h
  | cons y ys ih =>
    rcases List.mem_cons.mp h with heq | hmem
    · subst heq
      simp only [List.cons.sizeOf_spec]
      omega
    · have := ih hmem
      simp only [List.cons.sizeOf_spec]
      omega

theorem sizeOf_snd_lt_of_mem {o : List (String × JValue)} {k : String} {v : JValue}
    (h : (k, v) ∈ o) : sizeOf v < sizeOf o := by
  induction o with
  | nil => simp at h
  | cons kv rest ih =>
    rcases List.mem_cons.mp h with heq | hmem
    · obtain ⟨k', v'⟩ := kv
      cases heq
      simp only [List.cons.sizeOf_spec, Prod.mk.sizeOf_spec]
      omega
    · have := ih hmem
      simp only [List.cons.sizeOf_spec]
      omega

theorem wfB_arr_iff {l : List JValue} : wfB (.arr l) = true ↔ wfList l = true := by
  simp [wfB]

theorem wfB_obj_iff {o : List (String × JValue)} :
    wfB (.obj o) = true ↔ nodupB (o.map Prod.fst) = true ∧ wfObj o = true := by
  simp [wfB]

theorem wfList_mem {l : List JValue} {x : JValue} (hl : wfList l = true) (h : x ∈ l) :
    wfB x = true := by
  induction l with
  | nil => simp at h
  | cons y ys ih =>
    rw [wfList, Bool.and_eq_true] at hl
    rcases List.mem_cons.mp h with heq | hmem
    · subst heq
      exact hl.1
    · exact ih hl.2 hmem

theorem wfObj_mem {o : List (String × JValue)} {k : String} {v : JValue}
    (ho : wfObj o = true) (h : (k, v) ∈ o) : wfB v = true := by
  induction o with
  | nil => simp at h
  | cons kv rest ih =>
    rw [wfObj, Bool.and_eq_true] at ho
    rcases List.mem_cons.mp h with heq | hmem
    · cases heq
      exact ho.1
    · exact ih ho.2 hmem

theorem wfB_jlookup {o : List (String × JValue)} {k : String} {v : JValue}
    (hw : wfB (.obj o) = true) (h : jlookup o k = some v) : wfB v = true :=
  wfObj_mem (wfB_obj_iff.mp hw).2 (jlookup_mem h)

theorem subObj_cons {k : String} {v : JValue} {rest b : List (String × JValue)} :
    subObj ((k, v) :: rest) b = true ↔
      (∃ w, jlookup b k = some w ∧ jequiv v w = true) ∧ subObj rest b = true := by
  rw [subObj, Bool.and_eq_true]
  constructor
  · rintro ⟨h1, h2⟩
    refine ⟨?_, h2⟩
    split at h1
    · rename_i w hw
      exact ⟨w, hw, h1⟩
    · cases h1
  · rintro ⟨⟨w, hw, he⟩, h2⟩
    refine ⟨?_, h2⟩
    split
    · rename_i w' hw'
      rw [hw] at hw'
      cases hw'
      exact he
    · rename_i hw'
      rw [hw] at hw'
      cases hw'

theorem subObj_iff {a b : List (String × JValue)} :
    subObj a b = true ↔
      ∀ kv ∈ a, ∃ w, jlookup b kv.1 = some w ∧ jequiv kv.2 w = true := by
  induction a with
  | nil => simp [subObj]
  | cons kv rest ih =>
    obtain ⟨k, v⟩ := kv
    rw [subObj_cons, ih]
    simp [List.forall_mem_cons]

theorem jequiv_obj_iff {a b : List (String × JValue)} :
    jequiv (.obj a) (.obj b) = true ↔ subObj a b = true ∧ subObj b a = true := by
  rw [jequiv, Bool.and_eq_true]

theorem jequiv_arr_iff {a b : List JValue} :
    jequiv (.arr a) (.arr b) = true ↔ jequivList a b = true := by
  rw [jequiv]

theorem jequivList_refl {l : List JValue} (h : ∀ x ∈ l, jequiv x x = true) :
    jequivList l l = true := by
  induction l with
  | nil => rw [jequivList]
  | cons x xs ih =>
    rw [jequivList, Bool.and_eq_true]
    exact ⟨h x (List.mem_cons_self _ _), ih fun y hm => h y (List.mem_cons_of_mem _ hm)⟩

theorem jsymm_aux : ∀ n : Nat,
    (∀ x y : JValue, sizeOf x + sizeOf y < n → jequiv x y = true → jequiv y x = true) ∧
    (∀ xs ys : List JValue, sizeOf xs + sizeOf ys < n →
      jequivList xs ys = true → jequivList ys xs = true) := by
  intro n
  induction n with
  | zero =>
    constructor
    · intro x y hlt
      exact absurd hlt (by omega)
    · intro xs ys hlt
      exact absurd hlt (by omega)
  | succ n ih =>
    constructor
    · intro x y hlt h
      cases x <;> cases y <;> (try (simp [jequiv] at h; done))
      case str.str a b =>
        simp [jequiv] at h ⊢
        exact h.symm
      case num.num a b =>
        simp [jequiv] at h ⊢
        exact h.symm
      case bool.bool a b =>
        simp [jequiv] at h ⊢
        exact h.symm
      case null.null => exact h
      case arr.arr a b =>
        rw [jequiv_arr_iff] at h ⊢
        simp only [JValue.arr.sizeOf_spec] at hlt
        exact ih.2 a b (by omega) h
      case obj.obj a b =>
        rw [jequiv_obj_iff] at h ⊢
        exact ⟨h.2, h.1⟩
    · intro xs ys hlt h
      cases xs with
      | nil =>
        cases ys with
        | nil => exact h
        | cons y ys => simp [jequivList] at h
      | cons x xs =>
        cases ys with
        | nil => simp [jequivList] at h
        | cons y ys =>
          rw [jequivList, Bool.and_eq_true] at h ⊢
          simp only [List.cons.sizeOf_spec] at hlt
          exact ⟨ih.1 x y (by omega) h.1, ih.2 xs ys (by omega) h.2⟩

theorem jequiv_symm {x y : JValue} (h : jequiv x y = true) : jequiv y x = true :=
  (jsymm_aux (sizeOf x + sizeOf y + 1)).1 x y (by omega) h

theorem jrefl_aux : ∀ n : Nat, ∀ x : JValue, sizeOf x < n → wfB x = true →
    jequiv x x = true := by
  intro n
  induction n with
  | zero =>
    intro x hlt
    exact absurd hlt (by omega)
  | succ n ih =>
    intro x hlt hw
    cases x with
    | str a => simp [jequiv]
    | num a => simp [jequiv]
    | bool a => simp [jequiv]
    | null => rw [jequiv]
    | arr l =>
      rw [jequiv_arr_iff]
      refine jequivList_refl fun x hm => ?_
      have hsz := sizeOf_lt_of_mem_jlist hm
      simp only [JValue.arr.sizeOf_spec] at hlt
      exact ih x (by omega) (wfList_mem (wfB_arr_iff.mp hw) hm)
    | obj o =>
      rw [jequiv_obj_iff]
      obtain ⟨hnd, hwo⟩ := wfB_obj_iff.mp hw
      have hsub : subObj o o = true := by
        rw [subObj_iff]
        intro kv hm
        refine ⟨kv.2, jlookup_of_mem_nodup hnd (by simpa using hm), ?_⟩
        have hsz : sizeOf kv.2 < sizeOf o := sizeOf_snd_lt_of_mem (k := kv.1) (by simpa using hm)
        simp only [JValue.obj.sizeOf_spec] at hlt
        exact ih kv.2 (by omega) (wfObj_mem hwo (by simpa using hm))
      exact ⟨hsub, hsub⟩

theorem jequiv_refl {x : JValue} (h : wfB x = true) : jequiv x x = true :=
  jrefl_aux (sizeOf x + 1) x (by omega) h

/-- Structural parse failure: a required field is absent or mistyped (spec
section 7).  Fatal to `parse`, surfaced immediately, never retried. -/
structure MalformedDescriptor where
  msg : String
deriving Repr, DecidableEq

/-- Require a value to be an object. -/
def asObj : JValue → Except MalformedDescriptor (List (String × JValue))
  | .obj o => .ok o
  | _ => .error ⟨"expected an object"⟩

/-- Require a key to be present. -/
def getVal (o : List (String × JValue)) (k : String) : Except MalformedDescriptor JValue :=
  match jlookup o k with
  | some v => .ok v
  | none => .error ⟨"missing required key " ++ k⟩

/-- Require a key to hold a string. -/
def getStr (o : List (String × JValue)) (k : String) : Except MalformedDescriptor String :=
  match jlookup o k with
  | some (.str s) => .ok s
  | _ => .error ⟨"required string key absent or mistyped: " ++ k⟩

/-- Require a key to hold a boolean. -/
def getBool (o : List (String × JValue)) (k : String) : Except MalformedDescriptor Bool :=
  match jlookup o k with
  | some (.bool b) => .ok b
  | _ => .error ⟨"required boolean key absent or mistyped: " ++ k⟩

/-- Require a key to hold an array. -/
def getArr (o : List (String × JValue)) (k : String) : Except MalformedDescriptor (List JValue) :=
  match jlookup o k with
  | some (.arr l) => .ok l
  | _ => .error ⟨"required array key absent or mistyped: " ++ k⟩

/-- Require a key to hold an object. -/
def getObj (o : List (String × JValue)) (k : String) :
    Except MalformedDescriptor (List (String × JValue)) :=
  match jlookup o k with
  | some (.obj m) => .ok m
  | _ => .error ⟨"required object key absent or mistyped: " ++ k⟩

/-- Parse each element of a list, failing on the first malformed element. -/
def mapExcept {α : Type} (f : JValue → Except MalformedDescriptor α) :
    List JValue → Except MalformedDescriptor (List α)
  | [] => .ok []
  | x :: xs =>
    match f x with
    | .error e => .error e
    | .ok y =>
      match mapExcept f xs with
      | .error e => .error e
      | .ok ys => .ok (y :: ys)

theorem except_bind_ok {α β : Type} {x : Except MalformedDescriptor α}
    {f : α → Except MalformedDescriptor β} {b : β} :
    (x >>= f = .ok b) ↔ ∃ a, x = .ok a ∧ f a = .ok b := by
  cases x <;> simp [Bind.bind, Except.bind]

theorem asObj_ok {v : JValue} {o : List (String × JValue)} :
    asObj v = .ok o ↔ v = .obj o := by
  cases v <;> simp [asObj]

theorem getVal_ok {o : List (String × JValue)} {k : String} {v : JValue} :
    getVal o k = .ok v ↔ jlookup o k = some v := by
  unfold getVal
  cases h : jlookup o k <;> simp

theorem getStr_ok {o : List (String × JValue)} {k : String} {s : String} :
    getStr o k = .ok s ↔ jlookup o k = some (.str s) := by
  unfold getStr
  cases h : jlookup o k with
  | none => simp
  | some v => cases v <;> simp

theorem getBool_ok {o : List (String × JValue)} {k : String} {b : Bool} :
    getBool o k = .ok b ↔ jlookup o k = some (.bool b) := by
  unfold getBool
  cases h : jlookup o k with
  | none => simp
  | some v => cases v <;> simp

theorem getArr_ok {o : List (String × JValue)} {k : String} {l : List JValue} :
    getArr o k = .ok l ↔ jlookup o k = some (.arr l) := by
  unfold getArr
  cases h : jlookup o k with
  | none => simp
  | some v => cases v <;> simp

theorem getObj_ok {o m : List (String × JValue)} {k : String} :
    getObj o k = .ok m ↔ jlookup o k = some (.obj m) := by
  unfold getObj
  cases h : jlookup o k with
  | none => simp
  | some v => cases v <;> simp

theorem mapExcept_ok_nil {α : Type} {f : JValue → Except MalformedDescriptor α}
    {l : List α} : mapExcept f [] = .ok l ↔ l = [] := by
  simp [mapExcept, eq_comm]

theorem mapExcept_ok_cons {α : Type} {f : JValue → Except MalformedDescriptor α}
    {x : JValue} {xs : List JValue} {l : List α} :
    mapExcept f (x :: xs) = .ok l ↔
      ∃ y ys, f x = .ok y ∧ mapExcept f xs = .ok ys ∧ l = y :: ys := by
  simp only [mapExcept]
  cases hf : f x with
  | error e => simp
  | ok y =>
    cases hm : mapExcept f xs with
    | error e => simp
    | ok ys => simp [eq_comm]

/-- Modelled from the spec: a type reference is either a primitive tag (an
open set of strings, unknown tags preserved opaquely) or a composite array
type with an element type and a containsNull flag; unrecognized keys of an
array-type object ride along in `extras`. -/
inductive TypeRef where
  | prim : String → TypeRef
  | array : TypeRef → Bool → List (String × JValue) → TypeRef
deriving Repr

/-- Modelled from the spec: a named, typed, nullable field with an opaque
metadata mapping; unrecognized keys ride along in `extras`. -/
structure SchemaField where
  name : String
  type : TypeRef
  nullable : Bool
  metadata : List (String × JValue)
  extras : List (String × JValue)
deriving Repr

/-- Modelled from the spec: an ordered sequence of schema fields (the
`type: "struct"` discriminator is checked on parse and re-emitted on
serialization). -/
structure Schema where
  fields : List SchemaField
  extras : List (String × JValue)
deriving Repr

/-- Modelled from the spec: one runtime entry of a framework reference. -/
structure RuntimeRef where
  name : String
  version : String
  extras : List (String × JValue)
deriving Repr

/-- Modelled from the spec: the producing library with its version and an
optional ordered sequence of runtime entries. -/
structure FrameworkRef where
  name : String
  version : String
  runtimes : Option (List RuntimeRef)
  extras : List (String × JValue)
deriving Repr

/-- Modelled from the spec: an author record. -/
structure Author where
  name : String
  email : String
  extras : List (String × JValue)
deriving Repr

/-- Modelled from the spec: the table/object identifier of a training data
reference. -/
structure SourceRef where
  tablename : String
  type : String
  extras : List (String × JValue)
deriving Repr

/-- Modelled from the spec: a named pointer to a data source.  The
`connection` credential bundle is schema-less and stored as an opaque
ordered mapping so that no unrecognized key is dropped on round-trip. -/
structure TrainingDataReference where
  name : String
  connection : List (String × JValue)
  source : SourceRef
  extras : List (String × JValue)
deriving Repr

/-- Modelled from the spec: the pipeline metadata aggregate record. -/
structure PipelineMetadata where
  name : String
  description : String
  framework : FrameworkRef
  training_data_reference : List TrainingDataReference
  author : Author
  type : String
  runtimeEnvironment : String
  extras : List (String × JValue)
deriving Repr

/-- Modelled from the spec: the model metadata aggregate record. -/
structure ModelMetadata where
  name : String
  description : String
  framework : FrameworkRef
  author : Author
  label_column : String
  training_data_schema : Schema
  output_data_schema : Schema
  extras : List (String × JValue)
deriving Repr

/-- Modelled from the spec: a parsed descriptor document, the two top-level
aggregates plus any unrecognized top-level keys. -/
structure Descriptor where
  pipeline_meta : PipelineMetadata
  model_meta : ModelMetadata
  extras : List (String × JValue)
deriving Repr

mutual

/-- Modelled from the spec: parse a type reference.  A string is accepted
as a primitive tag whatever its value (open set); an object must carry the
`"array"` discriminator, a well-formed elementType and a boolean
containsNull. -/
def parseTypeRef : JValue → Except MalformedDescriptor TypeRef
  | .str s => .ok (.prim s)
  | .obj o =>
    match jlookup o "type" with
    | some (.str "array") =>
      match parseElemType o with
      | some (.ok et) =>
        (match jlookup o "containsNull" with
         | some (.bool cn) =>
           .ok (.array et cn (removeKeys o ["type", "elementType", "containsNull"]))
         | _ => .error ⟨"array type needs a boolean containsNull"⟩)
      | some (.error e) => .error e
      | none => .error ⟨"array type needs an elementType"⟩
    | _ => .error ⟨"composite type discriminator must be array"⟩
  | _ => .error ⟨"malformed type reference"⟩

/-- Parse the value of the first `elementType` entry of an array-type
object, when present. -/
def parseElemType : List (String × JValue) → Option (Except MalformedDescriptor TypeRef)
  | [] => none
  | (k, v) :: rest =>
    if k = "elementType" then some (parseTypeRef v) else parseElemType rest

end

theorem parseElemType_eq (o : List (String × JValue)) :
    parseElemType o = (jlookup o "elementType").map parseTypeRef := by
  induction o with
  | nil => rfl
  | cons kv rest ih =>
    obtain ⟨k, v⟩ := kv
    rw [parseElemType, jlookup]
    by_cases hk : k = "elementType"
    · rw [if_pos hk, if_pos hk]
      rfl
    · rw [if_neg hk, if_neg hk, ih]

/-- Modelled from the spec: parse one schema field. -/
def parseSchemaField (v : JValue) : Except MalformedDescriptor SchemaField := do
  let o ← asObj v
  let n ← getStr o "name"
  let tv ← getVal o "type"
  let tr ← parseTypeRef tv
  let nb ← getBool o "nullable"
  let md ← getObj o "metadata"
  .ok ⟨n, tr, nb, md, removeKeys o ["name", "type", "nullable", "metadata"]⟩

/-- Modelled from the spec: parse a schema document, rejecting any whose
top-level type discriminator is not `"struct"`. -/
def parseSchema (v : JValue) : Except MalformedDescriptor Schema :=
  match v with
  | .obj o =>
    match jlookup o "type" with
    | some (.str "struct") => do
      let fv ← getArr o "fields"
      let fs ← mapExcept parseSchemaField fv
      .ok ⟨fs, removeKeys o ["type", "fields"]⟩
    | _ => .error ⟨"schema type discriminator must be struct"⟩
  | _ => .error ⟨"schema must be an object"⟩

/-- Modelled from the spec: parse one runtime entry. -/
def parseRuntime (v : JValue) : Except MalformedDescriptor RuntimeRef := do
  let o ← asObj v
  let n ← getStr o "name"
  let ver ← getStr o "version"
  .ok ⟨n, ver, removeKeys o ["name", "version"]⟩

/-- Modelled from the spec: parse a framework reference; the `runtimes`
sequence is parsed when present and its absence is recorded, so that
serialization re-emits exactly the keys that were there. -/
def parseFramework (v : JValue) : Except MalformedDescriptor FrameworkRef := do
  let o ← asObj v
  let n ← getStr o "name"
  let ver ← getStr o "version"
  match jlookup o "runtimes" with
  | none => .ok ⟨n, ver, none, removeKeys o ["name", "version", "runtimes"]⟩
  | some rv => do
    let rl ← (match rv with
      | .arr rl => Except.ok rl
      | _ => Except.error ⟨"runtimes must be an array"⟩)
    let rs ← mapExcept parseRuntime rl
    .ok ⟨n, ver, some rs, removeKeys o ["name", "version", "runtimes"]⟩

/-- Modelled from the spec: parse an author record. -/
def parseAuthor (v : JValue) : Except MalformedDescriptor Author := do
  let o ← asObj v
  let n ← getStr o "name"
  let e ← getStr o "email"
  .ok ⟨n, e, removeKeys o ["name", "email"]⟩

/-- Modelled from the spec: parse the source identifier of a training data
reference. -/
def parseSource (v : JValue) : Except MalformedDescriptor SourceRef := do
  let o ← asObj v
  let t ← getStr o "tablename"
  let ty ← getStr o "type"
  .ok ⟨t, ty, removeKeys o ["tablename", "type"]⟩

/-- Modelled from the spec: parse one training data reference, keeping the
connection credential bundle as an opaque ordered mapping. -/
def parseTDRef (v : JValue) : Except MalformedDescriptor TrainingDataReference := do
  let o ← asObj v
  let n ← getStr o "name"
  let co ← getObj o "connection"
  let sv ← getVal o "source"
  let src ← parseSource sv
  .ok ⟨n, co, src, removeKeys o ["name", "connection", "source"]⟩

/-- Modelled from the spec: parse the pipeline metadata aggregate. -/
def parsePipelineMeta (v : JValue) : Except MalformedDescriptor PipelineMetadata := do
  let o ← asObj v
  let n ← getStr o "name"
  let d ← getStr o "description"
  let fv ← getVal o "framework"
  let fw ← parseFramework fv
  let tv ← getArr o "training_data_reference"
  let tds ← mapExcept parseTDRef tv
  let av ← getVal o "author"
  let au ← parseAuthor av
  let ty ← getStr o "type"
  let re ← getStr o "runtimeEnvironment"
  .ok ⟨n, d, fw, tds, au, ty, re,
    removeKeys o ["name", "description", "framework", "training_data_reference",
      "author", "type", "runtimeEnvironment"]⟩

/-- Modelled from the spec: parse the model metadata aggregate. -/
def parseModelMeta (v : JValue) : Except MalformedDescriptor ModelMetadata := do
  let o ← asObj v
  let n ← getStr o "name"
  let d ← getStr o "description"
  let fv ← getVal o "framework"
  let fw ← parseFramework fv
  let av ← getVal o "author"
  let au ← parseAuthor av
  let lc ← getStr o "label_column"
  let tsv ← getVal o "training_data_schema"
  let ts ← parseSchema tsv
  let osv ← getVal o "output_data_schema"
  let os ← parseSchema osv
  .ok ⟨n, d, fw, au, lc, ts, os,
    removeKeys o ["name", "description", "framework", "author", "label_column",
      "training_data_schema", "output_data_schema"]⟩

/-- Modelled from the spec: parse a descriptor document into its two
top-level aggregates, failing with `MalformedDescriptor` when a required
field is absent or mistyped. -/
def parse (v : JValue) : Except MalformedDescriptor Descriptor := do
  let o ← asObj v
  let pv ← getVal o "pipeline_meta"
  let pm ← parsePipelineMeta pv
  let mv ← getVal o "model_meta"
  let mm ← parseModelMeta mv
  .ok ⟨pm, mm, removeKeys o ["pipeline_meta", "model_meta"]⟩

/-- Modelled from the spec: serialize a type reference. -/
def serializeTypeRef : TypeRef → JValue
  | .prim t => .str t
  | .array et cn extras =>
    .obj (("type", .str "array") :: ("elementType", serializeTypeRef et) ::
      ("containsNull", .bool cn) :: extras)

/-- Modelled from the spec: serialize one schema field. -/
def serializeSchemaField (f : SchemaField) : JValue :=
  .obj (("name", .str f.name) :: ("type", serializeTypeRef f.type) ::
    ("nullable", .bool f.nullable) :: ("metadata", .obj f.metadata) :: f.extras)

/-- Modelled from the spec: serialize a schema document. -/
def serializeSchema (s : Schema) : JValue :=
  .obj (("type", .str "struct") ::
    ("fields", .arr (s.fields.map serializeSchemaField)) :: s.extras)

/-- Modelled from the spec: serialize one runtime entry. -/
def serializeRuntime (r : RuntimeRef) : JValue :=
  .obj (("name", .str r.name) :: ("version", .str r.version) :: r.extras)

/-- Modelled from the spec: serialize a framework reference, emitting the
`runtimes` key exactly when it was present. -/
def serializeFramework (fw : FrameworkRef) : JValue :=
  .obj (("name", .str fw.name) :: ("version", .str fw.version) ::
    ((match fw.runtimes with
      | some rs => [("runtimes", JValue.arr (rs.map serializeRuntime))]
      | none => []) ++ fw.extras))

/-- Modelled from the spec: serialize an author record. -/
def serializeAuthor (a : Author) : JValue :=
  .obj (("name", .str a.name) :: ("email", .str a.email) :: a.extras)

/-- Modelled from the spec: serialize a source identifier. -/
def serializeSource (s : SourceRef) : JValue :=
  .obj (("tablename", .str s.tablename) :: ("type", .str s.type) :: s.extras)

/-- Modelled from the spec: serialize one training data reference; the
opaque connection mapping is emitted verbatim. -/
def serializeTDRef (r : TrainingDataReference) : JValue :=
  .obj (("name", .str r.name) :: ("connection", .obj r.connection) ::
    ("source", serializeSource r.source) :: r.extras)

/-- Modelled from the spec: serialize the pipeline metadata aggregate. -/
def serializePipelineMeta (p : PipelineMetadata) : JValue :=
  .obj (("name", .str p.name) :: ("description", .str p.description) ::
    ("framework", serializeFramework p.framework) ::
    ("training_data_reference", .arr (p.training_data_reference.map serializeTDRef)) ::
    ("author", serializeAuthor p.author) :: ("type", .str p.type) ::
    ("runtimeEnvironment", .str p.runtimeEnvironment) :: p.extras)

/-- Modelled from the spec: serialize the model metadata aggregate. -/
def serializeModelMeta (m : ModelMetadata) : JValue :=
  .obj (("name", .str m.name) :: ("description", .str m.description) ::
    ("framework", serializeFramework m.framework) ::
    ("author", serializeAuthor m.author) :: ("label_column", .str m.label_column) ::
    ("training_data_schema", serializeSchema m.training_data_schema) ::
    ("output_data_schema", serializeSchema m.output_data_schema) :: m.extras)

/-- Modelled from the spec: serialize a parsed descriptor back to a
document, the structural inverse of `parse`. -/
def serialize (d : Descriptor) : JValue :=
  .obj (("pipeline_meta", serializePipelineMeta d.pipeline_meta) ::
    ("model_meta", serializeModelMeta d.model_meta) :: d.extras)

theorem jequiv_str_self (s : String) : jequiv (.str s) (.str s) = true := by
  simp [jequiv]

theorem jequiv_bool_self (b : Bool) : jequiv (.bool b) (.bool b) = true := by
  simp [jequiv]

/-- A serialized record whose emitted known fields match the source object
and whose extras are exactly the source's unrecognized entries is
structurally equivalent to the source object. -/
theorem jequiv_record (known : List (String × JValue)) (ks : List String)
    {o : List (String × JValue)} (hwf : wfB (.obj o) = true)
    (hknown : ∀ kv ∈ known, ∃ v, jlookup o kv.1 = some v ∧ jequiv kv.2 v = true)
    (habsent : ∀ k ∈ ks, jlookup known k = none → jlookup o k = none) :
    jequiv (.obj (known ++ removeKeys o ks)) (.obj o) = true := by
  obtain ⟨hnd, hwo⟩ := wfB_obj_iff.mp hwf
  rw [jequiv_obj_iff]
  constructor
  · rw [subObj_iff]
    intro kv hm
    rcases List.mem_append.mp hm with hk | hr
    · exact hknown kv hk
    · obtain ⟨hmo, hnks⟩ := mem_removeKeys (k := kv.1) (v := kv.2) (by simpa using hr)
      exact ⟨kv.2, jlookup_of_mem_nodup hnd hmo, jequiv_refl (wfObj_mem hwo hmo)⟩
  · rw [subObj_iff]
    intro kv hm
    have hlo : jlookup o kv.1 = some kv.2 := jlookup_of_mem_nodup hnd (by simpa using hm)
    cases hlk : jlookup known kv.1 with
    | some w =>
      have hmem := jlookup_mem hlk
      obtain ⟨v', hv', he⟩ := hknown _ hmem
      rw [hlo] at hv'
      cases hv'
      exact ⟨w, jlookup_append_some hlk, jequiv_symm he⟩
    | none =>
      by_cases hks : kv.1 ∈ ks
      · have hcontra := habsent kv.1 hks hlk
        rw [hlo] at hcontra
        cases hcontra
      · refine ⟨kv.2, ?_, jequiv_refl (wfObj_mem hwo (by simpa using hm))⟩
        rw [jlookup_append_none hlk, jlookup_removeKeys hks, hlo]

theorem jequivList_map_of {α : Type} (p : JValue → Except MalformedDescriptor α)
    (s : α → JValue) : ∀ (l : List JValue) (rs : List α),
    mapExcept p l = .ok rs →
    (∀ x ∈ l, ∀ r, p x = .ok r → jequiv (s r) x = true) →
    jequivList (rs.map s) l = true := by
  intro l
  induction l with
  | nil =>
    intro rs h _
    rw [mapExcept_ok_nil.mp h, List.map_nil, jequivList]
  | cons x xs ih =>
    intro rs h hrt
    obtain ⟨y, ys, hy, hys, rfl⟩ := mapExcept_ok_cons.mp h
    rw [List.map_cons, jequivList, Bool.and_eq_true]
    exact ⟨hrt x (List.mem_cons_self _ _) y hy,
      ih ys hys fun z hm r hr => hrt z (List.mem_cons_of_mem _ hm) r hr⟩

theorem jequiv_arr_map {α : Type} {p : JValue → Except MalformedDescriptor α}
    {s : α → JValue} {l : List JValue} {rs : List α}
    (h : mapExcept p l = .ok rs)
    (hrt : ∀ x ∈ l, ∀ r, p x = .ok r → jequiv (s r) x = true) :
    jequiv (.arr (rs.map s)) (.arr l) = true := by
  rw [jequiv_arr_iff]
  exact jequivList_map_of p s l rs h hrt

theorem tref_aux : ∀ n : Nat, ∀ (v : JValue) (t : TypeRef), sizeOf v < n →
    wfB v = true → parseTypeRef v = .ok t →
    jequiv (serializeTypeRef t) v = true := by
  intro n
  induction n with
  | zero =>
    intro v t hlt
    exact absurd hlt (by omega)
  | succ n ih =>
    intro v t hlt hw hp
    cases v with
    | str s =>
      rw [parseTypeRef] at hp
      cases hp
      rw [serializeTypeRef]
      exact jequiv_str_self s
    | num a => simp [parseTypeRef] at hp
    | bool a => simp [parseTypeRef] at hp
    | null => simp [parseTypeRef] at hp
    | arr l => simp [parseTypeRef] at hp
    | obj o =>
      rw [parseTypeRef, parseElemType_eq] at hp
      split at hp
      · rename_i hty
        split at hp
        · rename_i et hmap
          rw [Option.map_eq_some'] at hmap
          obtain ⟨ev, hev, het⟩ := hmap
          split at hp
          · rename_i cn hcn
            cases hp
            rw [serializeTypeRef]
            refine jequiv_record
              ([("type", .str "array"), ("elementType", serializeTypeRef et),
                ("containsNull", .bool cn)])
              (["type", "elementType", "containsNull"]) hw ?_ ?_
            · intro kv hm
              fin_cases hm
              · exact ⟨.str "array", hty, jequiv_str_self _⟩
              · refine ⟨ev, hev, ?_⟩
                have hsz := jlookup_sizeOf hev
                simp only [JValue.obj.sizeOf_spec] at hlt
                exact ih ev et (by omega) (wfB_jlookup hw hev) het
              · exact ⟨.bool cn, hcn, jequiv_bool_self _⟩
            · intro k hk hnone
              fin_cases hk <;> simp [jlookup] at hnone
          · exact Except.noConfusion hp
        · exact Except.noConfusion hp
        · exact Except.noConfusion hp
      · exact Except.noConfusion hp

theorem serializeTypeRef_roundtrip {v : JValue} {t : TypeRef}
    (hw : wfB v = true) (hp : parseTypeRef v = .ok t) :
    jequiv (serializeTypeRef t) v = true :=
  tref_aux (sizeOf v + 1) v t (by omega) hw hp

theorem serializeAuthor_roundtrip {v : JValue} {a : Author}
    (hw : wfB v = true) (hp : parseAuthor v = .ok a) :
    jequiv (serializeAuthor a) v = true := by
  simp only [parseAuthor, except_bind_ok, asObj_ok, getStr_ok, Except.ok.injEq] at hp
  obtain ⟨o, rfl, n, hn, e, he, rfl⟩ := hp
  rw [serializeAuthor]
  refine jequiv_record ([("name", .str n), ("email", .str e)])
    (["name", "email"]) hw ?_ ?_
  · intro kv hm
    fin_cases hm
    · exact ⟨.str n, hn, jequiv_str_self _⟩
    · exact ⟨.str e, he, jequiv_str_self _⟩
  · intro k hk hnone
    fin_cases hk <;> simp [jlookup] at hnone

theorem serializeRuntime_roundtrip {v : JValue} {r : RuntimeRef}
    (hw : wfB v = true) (hp : parseRuntime v = .ok r) :
    jequiv (serializeRuntime r) v = true := by
  simp only [parseRuntime, except_bind_ok, asObj_ok, getStr_ok, Except.ok.injEq] at hp
  obtain ⟨o, rfl, n, hn, ver, hver, rfl⟩ := hp
  rw [serializeRuntime]
  refine jequiv_record ([("name", .str n), ("version", .str ver)])
    (["name", "version"]) hw ?_ ?_
  · intro kv hm
    fin_cases hm
    · exact ⟨.str n, hn, jequiv_str_self _⟩
    · exact ⟨.str ver, hver, jequiv_str_self _⟩
  · intro k hk hnone
    fin_cases hk <;> simp [jlookup] at hnone

theorem serializeSource_roundtrip {v : JValue} {s : SourceRef}
    (hw : wfB v = true) (hp : parseSource v = .ok s) :
    jequiv (serializeSource s) v = true := by
  simp only [parseSource, except_bind_ok, asObj_ok, getStr_ok, Except.ok.injEq] at hp
  obtain ⟨o, rfl, t, ht, ty, hty, rfl⟩ := hp
  rw [serializeSource]
  refine jequiv_record ([("tablename", .str t), ("type", .str ty)])
    (["tablename", "type"]) hw ?_ ?_
  · intro kv hm
    fin_cases hm
    · exact ⟨.str t, ht, jequiv_str_self _⟩
    · exact ⟨.str ty, hty, jequiv_str_self _⟩
  · intro k hk hnone
    fin_cases hk <;> simp [jlookup] at hnone

theorem serializeFramework_roundtrip {v : JValue} {fw : FrameworkRef}
    (hw : wfB v = true) (hp : parseFramework v = .ok fw) :
    jequiv (serializeFramework fw) v = true := by
  simp only [parseFramework, except_bind_ok, asObj_ok, getStr_ok, Except.ok.injEq] at hp
  obtain ⟨o, rfl, n, hn, ver, hver, hrest⟩ := hp
  split at hrest
  · rename_i hrt
    cases hrest
    rw [serializeFramework]
    refine jequiv_record ([("name", .str n), ("version", .str ver)])
      (["name", "version", "runtimes"]) hw ?_ ?_
    · intro kv hm
      fin_cases hm
      · exact ⟨.str n, hn, jequiv_str_self _⟩
      · exact ⟨.str ver, hver, jequiv_str_self _⟩
    · intro k hk hnone
      fin_cases hk
      · simp [jlookup] at hnone
      · simp [jlookup] at hnone
      · exact hrt
  · rename_i rv hrt
    simp only [except_bind_ok, Except.ok.injEq] at hrest
    obtain ⟨rl, hrl, rs, hrs, rfl⟩ := hrest
    cases rv
    case str a => exact Except.noConfusion hrl
    case num a => exact Except.noConfusion hrl
    case bool a => exact Except.noConfusion hrl
    case null => exact Except.noConfusion hrl
    case obj oo => exact Except.noConfusion hrl
    case arr rla =>
    cases hrl
    rw [serializeFramework]
    refine jequiv_record ([("name", .str n), ("version", .str ver),
      ("runtimes", .arr (rs.map serializeRuntime))])
      (["name", "version", "runtimes"]) hw ?_ ?_
    · intro kv hm
      fin_cases hm
      · exact ⟨.str n, hn, jequiv_str_self _⟩
      · exact ⟨.str ver, hver, jequiv_str_self _⟩
      · refine ⟨.arr rl, hrt, jequiv_arr_map hrs ?_⟩
        intro x hm r hr
        exact serializeRuntime_roundtrip
          (wfList_mem (wfB_arr_iff.mp (wfB_jlookup hw hrt)) hm) hr
    · intro k hk hnone
      fin_cases hk <;> simp [jlookup] at hnone

theorem serializeSchemaField_roundtrip {v : JValue} {f : SchemaField}
    (hw : wfB v = true) (hp : parseSchemaField v = .ok f) :
    jequiv (serializeSchemaField f) v = true := by
  simp only [parseSchemaField, except_bind_ok, asObj_ok, getStr_ok, getVal_ok, getBool_ok,
    getObj_ok, Except.ok.injEq] at hp
  obtain ⟨o, rfl, n, hn, tv, htv, tr, htr, nb, hnb, md, hmd, rfl⟩ := hp
  rw [serializeSchemaField]
  refine jequiv_record ([("name", .str n), ("type", serializeTypeRef tr),
    ("nullable", .bool nb), ("metadata", .obj md)])
    (["name", "type", "nullable", "metadata"]) hw ?_ ?_
  · intro kv hm
    fin_cases hm
    · exact ⟨.str n, hn, jequiv_str_self _⟩
    · exact ⟨tv, htv, serializeTypeRef_roundtrip (wfB_jlookup hw htv) htr⟩
    · exact ⟨.bool nb, hnb, jequiv_bool_self _⟩
    · exact ⟨.obj md, hmd, jequiv_refl (wfB_jlookup hw hmd)⟩
  · intro k hk hnone
    fin_cases hk <;> simp [jlookup] at hnone

theorem serializeSchema_roundtrip {v : JValue} {s : Schema}
    (hw : wfB v = true) (hp : parseSchema v = .ok s) :
    jequiv (serializeSchema s) v = true := by
  cases v with
  | str a => simp [parseSchema] at hp
  | num a => simp [parseSchema] at hp
  | bool a => simp [parseSchema] at hp
  | null => simp [parseSchema] at hp
  | arr l => simp [parseSchema] at hp
  | obj o =>
    rw [parseSchema] at hp
    split at hp
    · rename_i hty
      simp only [except_bind_ok, getArr_ok, Except.ok.injEq] at hp
      obtain ⟨fv, hfv, fs, hfs, rfl⟩ := hp
      rw [serializeSchema]
      refine jequiv_record ([("type", .str "struct"),
        ("fields", .arr (fs.map serializeSchemaField))]) (["type", "fields"]) hw ?_ ?_
      · intro kv hm
        fin_cases hm
        · exact ⟨.str "struct", hty, jequiv_str_self _⟩
        · refine ⟨.arr fv, hfv, jequiv_arr_map hfs ?_⟩
          intro x hm r hr
          exact serializeSchemaField_roundtrip
            (wfList_mem (wfB_arr_iff.mp (wfB_jlookup hw hfv)) hm) hr
      · intro k hk hnone
        fin_cases hk <;> simp [jlookup] at hnone
    · exact Except.noConfusion hp

theorem serializeTDRef_roundtrip {v : JValue} {r : TrainingDataReference}
    (hw : wfB v = true) (hp : parseTDRef v = .ok r) :
    jequiv (serializeTDRef r) v = true := by
  simp only [parseTDRef, except_bind_ok, asObj_ok, getStr_ok, getObj_ok, getVal_ok,
    Except.ok.injEq] at hp
  obtain ⟨o, rfl, n, hn, co, hco, sv, hsv, src, hsrc, rfl⟩ := hp
  rw [serializeTDRef]
  refine jequiv_record ([("name", .str n), ("connection", .obj co),
    ("source", serializeSource src)]) (["name", "connection", "source"]) hw ?_ ?_
  · intro kv hm
    fin_cases hm
    · exact ⟨.str n, hn, jequiv_str_self _⟩
    · exact ⟨.obj co, hco, jequiv_refl (wfB_jlookup hw hco)⟩
    · exact ⟨sv, hsv, serializeSource_roundtrip (wfB_jlookup hw hsv) hsrc⟩
  · intro k hk hnone
    fin_cases hk <;> simp [jlookup] at hnone

theorem serializePipelineMeta_roundtrip {v : JValue} {p : PipelineMetadata}
    (hw : wfB v = true) (hp : parsePipelineMeta v = .ok p) :
    jequiv (serializePipelineMeta p) v = true := by
  simp only [parsePipelineMeta, except_bind_ok, asObj_ok, getStr_ok, getVal_ok, getArr_ok,
    Except.ok.injEq] at hp
  obtain ⟨o, rfl, n, hn, d, hd, fv, hfv, fw, hfw, tv, htv, tds, htds, av, hav, au, hau,
    ty, hty, re, hre, rfl⟩ := hp
  rw [serializePipelineMeta]
  refine jequiv_record ([("name", .str n), ("description", .str d),
    ("framework", serializeFramework fw),
    ("training_data_reference", .arr (tds.map serializeTDRef)),
    ("author", serializeAuthor au), ("type", .str ty),
    ("runtimeEnvironment", .str re)])
    (["name", "description", "framework", "training_data_reference",
      "author", "type", "runtimeEnvironment"]) hw ?_ ?_
  · intro kv hm
    fin_cases hm
    · exact ⟨.str n, hn, jequiv_str_self _⟩
    · exact ⟨.str d, hd, jequiv_str_self _⟩
    · exact ⟨fv, hfv, serializeFramework_roundtrip (wfB_jlookup hw hfv) hfw⟩
    · refine ⟨.arr tv, htv, jequiv_arr_map htds ?_⟩
      intro x hm r hr
      exact serializeTDRef_roundtrip
        (wfList_mem (wfB_arr_iff.mp (wfB_jlookup hw htv)) hm) hr
    · exact ⟨av, hav, serializeAuthor_roundtrip (wfB_jlookup hw hav) hau⟩
    · exact ⟨.str ty, hty, jequiv_str_self _⟩
    · exact ⟨.str re, hre, jequiv_str_self _⟩
  · intro k hk hnone
    fin_cases hk <;> simp [jlookup] at hnone

theorem serializeModelMeta_roundtrip {v : JValue} {m : ModelMetadata}
    (hw : wfB v = true) (hp : parseModelMeta v = .ok m) :
    jequiv (serializeModelMeta m) v = true := by
  simp only [parseModelMeta, except_bind_ok, asObj_ok, getStr_ok, getVal_ok,
    Except.ok.injEq] at hp
  obtain ⟨o, rfl, n, hn, d, hd, fv, hfv, fw, hfw, av, hav, au, hau, lc, hlc,
    tsv, htsv, ts, hts, osv, hosv, os, hos, rfl⟩ := hp
  rw [serializeModelMeta]
  refine jequiv_record ([("name", .str n), ("description", .str d),
    ("framework", serializeFramework fw), ("author", serializeAuthor au),
    ("label_column", .str lc), ("training_data_schema", serializeSchema ts),
    ("output_data_schema", serializeSchema os)])
    (["name", "description", "framework", "author", "label_column",
      "training_data_schema", "output_data_schema"]) hw ?_ ?_
  · intro kv hm
    fin_cases hm
    · exact ⟨.str n, hn, jequiv_str_self _⟩
    · exact ⟨.str d, hd, jequiv_str_self _⟩
    · exact ⟨fv, hfv, serializeFramework_roundtrip (wfB_jlookup hw hfv) hfw⟩
    · exact ⟨av, hav, serializeAuthor_roundtrip (wfB_jlookup hw hav) hau⟩
    · exact ⟨.str lc, hlc, jequiv_str_self _⟩
    · exact ⟨tsv, htsv, serializeSchema_roundtrip (wfB_jlookup hw htsv) hts⟩
    · exact ⟨osv, hosv, serializeSchema_roundtrip (wfB_jlookup hw hosv) hos⟩
  · intro k hk hnone
    fin_cases hk <;> simp [jlookup] at hnone

/-- The round-trip law, proved once and shared: parsing a well-formed
descriptor document and serializing the result reproduces the document up
to key-order-insensitive structural equality. -/
theorem serialize_parse_roundtrip {v : JValue} {d : Descriptor}
    (hw : wfB v = true) (hp : parse v = .ok d) :
    jequiv (serialize d) v = true := by
  simp only [parse, except_bind_ok, asObj_ok, getVal_ok, Except.ok.injEq] at hp
  obtain ⟨o, rfl, pv, hpv, pm, hpm, mv, hmv, mm, hmm, rfl⟩ := hp
  rw [serialize]
  refine jequiv_record ([("pipeline_meta", serializePipelineMeta pm),
    ("model_meta", serializeModelMeta mm)]) (["pipeline_meta", "model_meta"]) hw ?_ ?_
  · intro kv hm
    fin_cases hm
    · exact ⟨pv, hpv, serializePipelineMeta_roundtrip (wfB_jlookup hw hpv) hpm⟩
    · exact ⟨mv, hmv, serializeModelMeta_roundtrip (wfB_jlookup hw hmv) hmm⟩
  · intro k hk hnone
    fin_cases hk <;> simp [jlookup] at hnone

/-- A semantic invariant violation found by `validate` (spec section 7):
non-fatal, collected and returned as data for the caller to act on. -/
inductive ValidationIssue where
  | labelColumnMissing (label : String)
  | outputMissingField (field : String)
  | noPredictionField
deriving Repr, DecidableEq

/-- Does a field's metadata carry the given `modeling_role` tag? -/
def hasRole (f : SchemaField) (role : String) : Bool :=
  match jlookup f.metadata "modeling_role" with
  | some (.str s) => s = role
  | _ => false

/-- The names of a model's output schema fields. -/
def outputFieldNames (m : ModelMetadata) : List String :=
  m.output_data_schema.fields.map SchemaField.name

/-- The training schema fields not designated as the label column. -/
def nonLabelFields (m : ModelMetadata) : List SchemaField :=
  m.training_data_schema.fields.filter (fun f => f.name ≠ m.label_column)

/-- Invariant (spec section 3): the label column names a field present in
the training data schema. -/
def labelColumnOk (m : ModelMetadata) : Bool :=
  (m.training_data_schema.fields.map SchemaField.name).contains m.label_column

/-- Invariant (spec section 3): every non-label training field also appears
in the output data schema. -/
def outputSupersetOk (m : ModelMetadata) : Bool :=
  (nonLabelFields m).all (fun f => (outputFieldNames m).contains f.name)

/-- Invariant (spec section 3): some output field carries
`modeling_role = "prediction"`. -/
def predictionFieldOk (m : ModelMetadata) : Bool :=
  m.output_data_schema.fields.any (fun f => hasRole f "prediction")

/-- Modelled from the spec: `validate` checks the label-column and
output-superset invariants of section 3 over a `ModelMetadata`, returning
its findings as a list of `ValidationIssue`; it is total and never raises,
leaving severity decisions to the caller. -/
def validate (m : ModelMetadata) : List ValidationIssue :=
  (if (m.training_data_schema.fields.map SchemaField.name).contains m.label_column
    then [] else [.labelColumnMissing m.label_column]) ++
  (((nonLabelFields m).filter
      (fun f => !(outputFieldNames m).contains f.name)).map
    (fun f => .outputMissingField f.name)) ++
  (if m.output_data_schema.fields.any (fun f => hasRole f "prediction")
    then [] else [.noPredictionField])

/-- The descriptor document shipped by the repository (its JSON source
file), embedded verbatim: all keys in source order, all array elements in
source order. -/
def exampleTrainingSchema : JValue :=
  .obj [("type", .str "struct"),
    ("fields", .arr [
      .obj [("metadata", .obj []), ("type", .str "integer"), ("name", .str "id"),
        ("nullable", .bool true)],
      .obj [("metadata", .obj []), ("type", .str "string"), ("name", .str "text"),
        ("nullable", .bool true)],
      .obj [("metadata", .obj []), ("type", .str "string"), ("name", .str "label"),
        ("nullable", .bool true)]])]

/-- The example model's output data schema document. -/
def exampleOutputSchema : JValue :=
  .obj [("type", .str "struct"),
    ("fields", .arr [
      .obj [("name", .str "id"), ("type", .str "integer"), ("nullable", .bool true),
        ("metadata", .obj [])],
      .obj [("name", .str "words"),
        ("type", .obj [("containsNull", .bool false), ("elementType", .str "string"),
          ("type", .str "array")]),
        ("nullable", .bool true), ("metadata", .obj [])],
      .obj [("name", .str "label"), ("type", .str "string"), ("nullable", .bool true),
        ("metadata", .obj [])],
      .obj [("name", .str "prediction"), ("nullable", .bool true), ("type", .str "double"),
        ("metadata", .obj [("modeling_role", .str "prediction")])],
      .obj [("name", .str "probability"), ("nullable", .bool true),
        ("type", .obj [("containsNull", .bool true), ("elementType", .str "double"),
          ("type", .str "array")]),
        ("metadata", .obj [("modeling_role", .str "probability")])]])]

/-- The example document's `pipeline_meta` sub-document. -/
def examplePipelineMeta : JValue :=
  .obj [("name", .str "sentiment-prediction-pipeline"),
    ("description", .str "sentiment-prediction-pipeline"),
    ("framework", .obj [("name", .str "mllib"), ("version", .str "2.3"),
      ("runtimes", .arr [.obj [("name", .str "spark"), ("version", .str "2.3")]])]),
    ("training_data_reference", .arr [
      .obj [("name", .str "Drug training data"),
        ("connection", .obj [("db", .str "BLUDB"),
          ("host", .str "dashdb-entry-yp-dal09-09.services.dal.bluemix.net"),
          ("username", .str "dash11348"),
          ("password", .str "G_2jp_K2avMY")]),
        ("source", .obj [("tablename", .str "SENTIMENT_TRAIN_DATA"),
          ("type", .str "dashdb")])]]),
    ("author", .obj [("name", .str "IBM"), ("email", .str "")]),
    ("type", .str "sparkml-pipeline-2.1"),
    ("runtimeEnvironment", .str "spark-2.1")]

/-- The entries of the example document's `model_meta` sub-document. -/
def exampleModelMetaEntries : List (String × JValue) :=
  [("name", .str "Sentiment Prediction"),
    ("description",
      .str "Predicts comment sentiment about particular topic for marketing company."),
    ("framework", .obj [("name", .str "mllib"), ("version", .str "2.3"),
      ("runtimes", .arr [.obj [("name", .str "spark"), ("version", .str "2.3")]])]),
    ("author", .obj [("name", .str "IBM"), ("email", .str "")]),
    ("label_column", .str "sentiment"),
    ("training_data_schema", exampleTrainingSchema),
    ("output_data_schema", exampleOutputSchema)]

/-- The example document's `model_meta` sub-document. -/
def exampleModelMetaDoc : JValue :=
  .obj exampleModelMetaEntries

/-- The full example descriptor document. -/
def exampleDoc : JValue :=
  .obj [("pipeline_meta", examplePipelineMeta), ("model_meta", exampleModelMetaDoc)]

/-- The parse of the example document; the theorems below show the parse
succeeds and produces exactly this record. -/
def exampleParsed : Descriptor :=
  match parse exampleDoc with
  | .ok d => d
  | .error _ =>
    ⟨⟨"", "", ⟨"", "", none, []⟩, [], ⟨"", "", []⟩, "", "", []⟩,
     ⟨"", "", ⟨"", "", none, []⟩, ⟨"", "", []⟩, "", ⟨[], []⟩, ⟨[], []⟩, []⟩, []⟩

/-- The example model_meta entries with `training_data_schema` removed,
used to exercise the missing-required-field behaviour of `parse`. -/
def exampleModelMetaNoSchemaEntries : List (String × JValue) :=
  removeKeys exampleModelMetaEntries ["training_data_schema"]

/-- The example document with `model_meta.training_data_schema` removed. -/
def exampleDocNoSchema : JValue :=
  .obj [("pipeline_meta", examplePipelineMeta),
    ("model_meta", .obj exampleModelMetaNoSchemaEntries)]

/-- The entries of the example document extended with an unknown top-level
key, used to exercise unknown-key preservation. -/
def exampleDocExtraEntries : List (String × JValue) :=
  [("pipeline_meta", examplePipelineMeta), ("model_meta", exampleModelMetaDoc),
    ("x-unknown", .str "kept")]

/-- The example document extended with an unknown top-level key. -/
def exampleDocExtra : JValue :=
  .obj exampleDocExtraEntries

/-- The parse of the extended example document. -/
def exampleParsedExtra : Descriptor :=
  match parse exampleDocExtra with
  | .ok d => d
  | .error _ =>
    ⟨⟨"", "", ⟨"", "", none, []⟩, [], ⟨"", "", []⟩, "", "", []⟩,
     ⟨"", "", ⟨"", "", none, []⟩, ⟨"", "", []⟩, "", ⟨[], []⟩, ⟨[], []⟩, []⟩, []⟩

/-- A model metadata record whose label column names no training field. -/
def sampleBadModel : ModelMetadata :=
  ⟨"m", "d", ⟨"mllib", "2.3", none, []⟩, ⟨"a", "", []⟩, "lab", ⟨[], []⟩, ⟨[], []⟩, []⟩

theorem noPred_mem_validate (m : ModelMetadata) :
    ValidationIssue.noPredictionField ∈ validate m ↔ predictionFieldOk m = false := by
  unfold validate predictionFieldOk
  cases hl : (m.training_data_schema.fields.map SchemaField.name).contains m.label_column <;>
    cases hp : m.output_data_schema.fields.any (fun f => hasRole f "prediction") <;>
      simp [hl, hp, List.mem_map]

theorem validate_empty_iff (m : ModelMetadata) :
    validate m = [] ↔
      labelColumnOk m = true ∧ outputSupersetOk m = true ∧ predictionFieldOk m = true := by
  unfold validate labelColumnOk outputSupersetOk predictionFieldOk
  cases hl : (m.training_data_schema.fields.map SchemaField.name).contains m.label_column <;>
    cases hp : m.output_data_schema.fields.any (fun f => hasRole f "prediction") <;>
      simp [hl, hp, List.map_eq_nil, List.filter_eq_nil, List.all_eq_true,
        Bool.not_eq_true']

/-- C1: for every well-formed descriptor document D that `parse` accepts,
`serialize (parse D)` equals D up to key-order-insensitive structural
equality, with all metadata keys and the ordering of arrays (schema
fields, runtimes, training_data_reference entries) preserved; the witness
instantiates the law at the repository's example document. -/
theorem C1_roundTripLaw (D : JValue) (d : Descriptor)
    (hw : wfB D = true) (hp : parse D = .ok d) :
    jequiv (serialize d) D = true :=
  serialize_parse_roundtrip hw hp

theorem C1_roundTripLaw_witness :
    wfB exampleDoc = true ∧ parse exampleDoc = .ok exampleParsed ∧
      jequiv (serialize exampleParsed) exampleDoc = true :=
  ⟨by decide, rfl, C1_roundTripLaw exampleDoc exampleParsed (by decide) rfl⟩

/-- C2: whenever a model's label column names no field of its training
data schema, `validate` returns a non-empty issue list containing the
label-column violation. -/
theorem C2_labelColumnViolation (m : ModelMetadata)
    (h : (m.training_data_schema.fields.map SchemaField.name).contains m.label_column
      = false) :
    validate m ≠ [] ∧ ValidationIssue.labelColumnMissing m.label_column ∈ validate m := by
  have hmem : ValidationIssue.labelColumnMissing m.label_column ∈ validate m := by
    unfold validate
    rw [h]
    simp
  exact ⟨List.ne_nil_of_mem hmem, hmem⟩

theorem C2_labelColumnViolation_witness :
    ((sampleBadModel.training_data_schema.fields.map SchemaField.name).contains
      sampleBadModel.label_column = false) ∧
    (validate sampleBadModel ≠ [] ∧
      ValidationIssue.labelColumnMissing sampleBadModel.label_column
        ∈ validate sampleBadModel) :=
  ⟨by decide, C2_labelColumnViolation sampleBadModel (by decide)⟩

/-- C3: for the repository's example document — label column "sentiment",
training schema fields id, text, label — `validate` on the parsed model
metadata reports the label-column violation. -/
theorem C3_exampleLabelViolation :
    parse exampleDoc = .ok exampleParsed ∧
    exampleParsed.model_meta.label_column = "sentiment" ∧
    exampleParsed.model_meta.training_data_schema.fields.map SchemaField.name =
      ["id", "text", "label"] ∧
    ValidationIssue.labelColumnMissing "sentiment" ∈ validate exampleParsed.model_meta :=
  ⟨rfl, rfl, rfl, by decide⟩

/-- C4: `validate` flags the missing-prediction-field issue exactly when no
output schema field carries `modeling_role = "prediction"`; the example's
output schema (fields prediction and probability with those roles) carries
one, so no prediction-field violation is reported there. -/
theorem C4_predictionFieldFlag :
    (∀ m : ModelMetadata,
      ValidationIssue.noPredictionField ∈ validate m ↔ predictionFieldOk m = false) ∧
    predictionFieldOk exampleParsed.model_meta = true ∧
    ValidationIssue.noPredictionField ∉ validate exampleParsed.model_meta :=
  ⟨noPred_mem_validate, by decide, by decide⟩

/-- C5: `parse` fails with a `MalformedDescriptor` (its only error channel;
the Except result admits no retry) on a document whose model_meta lacks the
required training_data_schema key. -/
theorem C5_missingSchemaFails (D : JValue) (o mo : List (String × JValue))
    (hD : D = .obj o) (hmm : jlookup o "model_meta" = some (.obj mo))
    (hts : jlookup mo "training_data_schema" = none) :
    ∃ e : MalformedDescriptor, parse D = .error e := by
  subst hD
  cases hp : parse (.obj o) with
  | error e => exact ⟨e, rfl⟩
  | ok d =>
    exfalso
    simp only [parse, except_bind_ok, asObj_ok, getVal_ok, Except.ok.injEq] at hp
    obtain ⟨o', ho', pv, hpv, pm, hpm, mv, hmv, mm, hmmp, _⟩ := hp
    cases ho'
    rw [hmm] at hmv
    cases hmv
    simp only [parseModelMeta, except_bind_ok, asObj_ok, getStr_ok, getVal_ok,
      Except.ok.injEq] at hmmp
    obtain ⟨o2, ho2, _, _, _, _, _, _, _, _, _, _, _, _, _, _, tsv, htsv, _⟩ := hmmp
    cases ho2
    rw [hts] at htsv
    cases htsv

theorem C5_missingSchemaFails_witness :
    ∃ e : MalformedDescriptor, parse exampleDocNoSchema = .error e :=
  C5_missingSchemaFails exampleDocNoSchema
    [("pipeline_meta", examplePipelineMeta),
      ("model_meta", .obj exampleModelMetaNoSchemaEntries)]
    exampleModelMetaNoSchemaEntries rfl rfl rfl

/-- C6: `validate` is total — for every model metadata record, also one
violating the invariants, it returns its findings as an ordinary list (its
type has no exception channel), empty exactly when the label-column,
output-superset and prediction-field invariants all hold. -/
theorem C6_validateTotal (m : ModelMetadata) :
    ∃ issues : List ValidationIssue, validate m = issues ∧
      (issues = [] ↔
        labelColumnOk m = true ∧ outputSupersetOk m = true ∧
          predictionFieldOk m = true) :=
  ⟨validate m, rfl, validate_empty_iff m⟩

/-- C7: schema parsing rejects any object whose top-level type
discriminator is not "struct" and propagates a malformed elementType as an
error, while every primitive tag string, known or unknown, is accepted and
preserved opaquely; the example document's two schemas are accepted. -/
theorem C7_schemaTyping :
    (∀ (o : List (String × JValue)) (s : Schema),
      jlookup o "type" ≠ some (.str "struct") → parseSchema (.obj o) ≠ .ok s) ∧
    (∀ (o : List (String × JValue)) (ev : JValue) (e : MalformedDescriptor),
      jlookup o "type" = some (.str "array") → jlookup o "elementType" = some ev →
      parseTypeRef ev = .error e → parseTypeRef (.obj o) = .error e) ∧
    (∀ tag : String,
      parseTypeRef (.str tag) = .ok (.prim tag) ∧
      serializeTypeRef (.prim tag) = .str tag) ∧
    (∃ s1 s2 : Schema, parseSchema exampleTrainingSchema = .ok s1 ∧
      parseSchema exampleOutputSchema = .ok s2) := by
  refine ⟨?_, ?_, fun tag => ⟨rfl, rfl⟩, ⟨_, _, rfl, rfl⟩⟩
  · intro o s hne hok
    rw [parseSchema] at hok
    split at hok
    · rename_i hty
      exact hne hty
    · exact Except.noConfusion hok
  · intro o ev e hty hev hpe
    rw [parseTypeRef, parseElemType_eq, hty, hev]
    simp [hpe]

theorem C7_schemaTyping_witness :
    (parseSchema (.obj [("type", .str "row")]) ≠ .ok ⟨[], []⟩) ∧
    (parseTypeRef (.obj [("type", .str "array"), ("elementType", .null),
      ("containsNull", .bool true)]) = .error ⟨"malformed type reference"⟩) ∧
    parseTypeRef (.str "mystery-tag") = .ok (.prim "mystery-tag") :=
  ⟨C7_schemaTyping.1 [("type", .str "row")] ⟨[], []⟩ (by simp [jlookup]),
    C7_schemaTyping.2.1 [("type", .str "array"), ("elementType", .null),
      ("containsNull", .bool true)] .null ⟨"malformed type reference"⟩ rfl rfl rfl,
    (C7_schemaTyping.2.2.1 "mystery-tag").1⟩

/-- C8: unknown keys survive parse followed by serialize: every top-level
key of a well-formed document that parses reappears with an equivalent
value in the serialized output; the opaque connection mapping of a training
data reference is stored by parse exactly as written and re-emitted
verbatim by serialize. -/
theorem C8_unknownKeysPreserved :
    (∀ (o : List (String × JValue)) (d : Descriptor) (k : String) (v : JValue),
      wfB (.obj o) = true → parse (.obj o) = .ok d → jlookup o k = some v →
      ∃ (os : List (String × JValue)) (w : JValue), serialize d = .obj os ∧
        jlookup os k = some w ∧ jequiv w v = true) ∧
    (∀ (o : List (String × JValue)) (r : TrainingDataReference),
      parseTDRef (.obj o) = .ok r → jlookup o "connection" = some (.obj r.connection)) ∧
    (∀ r : TrainingDataReference, ∃ os : List (String × JValue),
      serializeTDRef r = .obj os ∧
        jlookup os "connection" = some (.obj r.connection)) := by
  refine ⟨?_, ?_, fun r => ⟨_, rfl, rfl⟩⟩
  · intro o d k v hw hp hk
    have hrt := serialize_parse_roundtrip hw hp
    rw [serialize, jequiv_obj_iff] at hrt
    obtain ⟨w, hw2, he⟩ := subObj_iff.mp hrt.2 (k, v) (jlookup_mem hk)
    exact ⟨_, w, by rw [serialize], hw2, jequiv_symm he⟩
  · intro o r hp
    simp only [parseTDRef, except_bind_ok, asObj_ok, getStr_ok, getObj_ok, getVal_ok,
      Except.ok.injEq] at hp
    obtain ⟨o', ho', n, hn, co, hco, sv, hsv, src, hsrc, heq⟩ := hp
    cases ho'
    rw [← heq]
    exact hco

theorem C8_unknownKeysPreserved_witness :
    ∃ (os : List (String × JValue)) (w : JValue),
      serialize exampleParsedExtra = .obj os ∧
        jlookup os "x-unknown" = some w ∧ jequiv w (.str "kept") = true :=
  C8_unknownKeysPreserved.1 exampleDocExtraEntries exampleParsedExtra "x-unknown"
    (.str "kept") (by decide) rfl rfl

/-- C9: parse, validate and serialize are pure deterministic functions of
their input: evaluations on equal inputs are equal, and in particular the
error a failing parse produces is uniquely determined by the document. -/
theorem C9_deterministic :
    (∀ D : JValue, parse D = parse D ∧
      ∀ e1 e2 : MalformedDescriptor, parse D = .error e1 → parse D = .error e2 →
        e1 = e2) ∧
    (∀ m : ModelMetadata, validate m = validate m) ∧
    (∀ d : Descriptor, serialize d = serialize d) := by
  refine ⟨fun D => ⟨rfl, fun e1 e2 h1 h2 => ?_⟩, fun m => rfl, fun d => rfl⟩
  have h3 := h1.symm.trans h2
  injection h3

theorem C9_deterministic_witness :
    (⟨"missing required key training_data_schema"⟩ : MalformedDescriptor) =
      ⟨"missing required key training_data_schema"⟩ :=
  (C9_deterministic.1 exampleDocNoSchema).2
    ⟨"missing required key training_data_schema"⟩
    ⟨"missing required key training_data_schema"⟩ rfl rfl

/-- C10: the example document parses successfully, and beyond the
label-column violation, validate reports an output-superset violation for
the training field "text" (absent from the output schema) — and for no
other training field, since "id" and "label" do appear in the output
schema. -/
theorem C10_exampleSupersetViolation :
    parse exampleDoc = .ok exampleParsed ∧
    ValidationIssue.labelColumnMissing "sentiment" ∈ validate exampleParsed.model_meta ∧
    ValidationIssue.outputMissingField "text" ∈ validate exampleParsed.model_meta ∧
    ValidationIssue.outputMissingField "id" ∉ validate exampleParsed.model_meta ∧
    ValidationIssue.outputMissingField "label" ∉ validate exampleParsed.model_meta :=
  ⟨rfl, by decide, by decide, by decide, by decide⟩
